import Mathlib

/-!
# Partition / dispatch / aggregate layer of the simulation runner

Shallow embedding of `internal/simulation/runner.go` (`Runner.Run`,
`Runner.runThread`, `Runner.runBatch`) and of the default flag values of
`cmd/simulator/main.go`.

* Go `int` is modelled as a mathematical integer that is wrapped to 64-bit
  two's complement after every arithmetic operation (`wrapInt`).
* `fmt.Errorf` values are modelled structurally (`GoError`): one constructor per
  format string, the `%d` arguments and the `%w` cause being its fields.
* A run-time panic is an explicit outcome (`Outcome.panicked`).
* `runBatch` is a parameter of `runThread` and `Run`, so that batch failures can
  be studied: the source marks its body as a placeholder, and `runThread`
  already handles the error it may return. The stub of the source (which always
  returns `nil`) is `runBatch`.
* The goroutines of `Run` do not share state. Their executions are recorded per
  worker (`ThreadRun`), and the order in which they send to `resultChan` is the
  explicit parameter `sched` of `Run`.
* `make(chan error, threads)` panics as the size check of the runtime's
  `makechan` prescribes (`makechanPanics`); the allocation limit of the
  platform, `maxAlloc - hchanSize`, is the parameter `maxMem` of `Run`.
* Logging and printing are not modelled, and neither is memory exhaustion below
  that limit.
-/

namespace Simulation

/-! ## Go `int` arithmetic -/

/-- Two's-complement wrap-around of a mathematical integer to 64 bits. -/
def wrapInt (x : Int) : Int := (x + 2 ^ 63) % 2 ^ 64 - 2 ^ 63

/-- The value is representable as a Go `int`. -/
def IsInt (x : Int) : Prop := -(2 ^ 63) ≤ x ∧ x < 2 ^ 63

instance (x : Int) : Decidable (IsInt x) := by unfold IsInt; infer_instance

/-- Go `a + b` on `int`. -/
def goAdd (a b : Int) : Int := wrapInt (a + b)

/-- Go `a * b` on `int`. -/
def goMul (a b : Int) : Int := wrapInt (a * b)

/-- Go `a / b` on `int` for `b != 0`: truncated division; the only overflow,
`MinInt / -1`, wraps. -/
def goDiv (a b : Int) : Int := wrapInt (Int.tdiv a b)

/-- Go `a % b` on `int` for `b != 0`: truncated remainder. -/
def goMod (a b : Int) : Int := Int.tmod a b

/-- The size check of the runtime's `makechan` for `make(chan error, size)` on a
64-bit platform, where a value of type `error` takes 16 bytes: the call panics
with "makechan: size out of range" when `size` is negative, when `16 * size`
overflows `uintptr`, or when `16 * size` exceeds `maxMem = maxAlloc - hchanSize`. -/
def makechanPanics (maxMem size : Int) : Bool :=
  decide (size < 0 ∨ 2 ^ 64 ≤ 16 * size ∨ maxMem < 16 * size)

/-! ## Errors, panics and traces -/

/-- Errors built by `fmt.Errorf` in `runner.go`; `E` is the type of the errors
that `runBatch` may return. -/
inductive GoError (E : Type) where
  /-- The error "numSims (%d) must be divisible by threads (%d)". -/
  | notDivisibleByThreads (numSims threads : Int)
  /-- The error "simsPerThread (%d) must be divisible by batchSize (%d)". -/
  | notDivisibleByBatchSize (simsPerThread batchSize : Int)
  /-- The error "batch %d failed: %w". -/
  | batchFailed (batch : Int) (cause : E)
  /-- The error "thread error: %w". -/
  | threadError (cause : GoError E)
  deriving DecidableEq, Repr

/-- Run-time panics that `Run` can raise. -/
inductive GoPanic where
  /-- The panic "integer divide by zero". -/
  | divideByZero
  /-- The panic "makechan: size out of range". -/
  | makechanSize
  deriving DecidableEq, Repr

/-- How a call of `Run` ends. -/
inductive Outcome (E : Type) where
  | panicked (p : GoPanic)
  | returned (err : Option (GoError E))
  deriving DecidableEq, Repr

/-- One invocation of `runBatch` by `runThread`: the loop index `batch` and the
arguments passed. -/
structure BatchCall where
  batch : Int
  threadID : Int
  startSim : Int
  batchSize : Int
  compress : Bool
  deriving DecidableEq, Repr

/-- The type of `runBatch`: `(threadID, startSim, batchSize, compress)` to an
error or `nil`. -/
abbrev RunBatchFn (E : Type) := Int → Int → Int → Bool → Option E

/-- One execution of the goroutine body of `Run`: the arguments it passes to
`runThread`, the `runBatch` calls made, and the error sent to `resultChan`. -/
structure ThreadRun (E : Type) where
  threadID : Int
  startSim : Int
  numBatches : Int
  batchSize : Int
  calls : List BatchCall
  err : Option (GoError E)

/-- Result of `Run`: its outcome and the worker goroutines it started, in the
order of their `threadID`. -/
structure RunResult (E : Type) where
  outcome : Outcome E
  workers : List (ThreadRun E)

/-! ## The runner -/

/-- The stub `runBatch` of the source: ignores its arguments and returns `nil`. -/
def runBatch {E : Type} (_threadID _startSim _batchSize : Int) (_compress : Bool) : Option E :=
  none

/-- The body of the loop `for batch := 0; batch < numBatches; batch++` of
`runThread`, over the remaining loop indices. Returns the `runBatch` calls made
and the returned error. -/
def runThreadLoop {E : Type} (rb : RunBatchFn E) (threadID startSim batchSize : Int)
    (compress : Bool) : List Nat → List BatchCall × Option (GoError E)
  | [] => ([], none)
  | batch :: rest =>
    let batchStart := goAdd startSim (goMul batch batchSize)
    match rb threadID batchStart batchSize compress with
    | some err =>
      ([⟨batch, threadID, batchStart, batchSize, compress⟩], some (.batchFailed batch err))
    | none =>
      let r := runThreadLoop rb threadID startSim batchSize compress rest
      (⟨batch, threadID, batchStart, batchSize, compress⟩ :: r.1, r.2)

/-- The method `runThread`: the loop runs over `batch = 0, ..., numBatches - 1`
(no iteration when `numBatches <= 0`). -/
def runThread {E : Type} (rb : RunBatchFn E) (threadID startSim numBatches batchSize : Int)
    (compress : Bool) : List BatchCall × Option (GoError E) :=
  runThreadLoop rb threadID startSim batchSize compress (List.range numBatches.toNat)

/-- The goroutine body `func(id int)` started by `Run`. -/
def goroutine {E : Type} (rb : RunBatchFn E) (simsPerThread batchesPerThread batchSize : Int)
    (compress : Bool) (id : Int) : ThreadRun E :=
  let startSim := goMul id simsPerThread
  let r := runThread rb id startSim batchesPerThread batchSize compress
  ⟨id, startSim, batchesPerThread, batchSize, r.1, r.2⟩

/-- The loop `for err := range resultChan` of `Run` over the channel content. -/
def collect {E : Type} : List (Option (GoError E)) → Option (GoError E)
  | [] => none
  | some err :: _ => some (.threadError err)
  | none :: rest => collect rest

/-- The method `Run`. `maxMem` is the allocation limit of the platform seen by
`make(chan error, threads)`, and `sched` lists the worker ids in the order in
which the goroutines send their result to `resultChan`. -/
def Run {E : Type} (maxMem : Int) (rb : RunBatchFn E) (numSims threads batchSize : Int)
    (compress : Bool) (sched : List Nat) : RunResult E :=
  if threads = 0 then ⟨.panicked .divideByZero, []⟩
  else
    let simsPerThread := goDiv numSims threads
    if goMod numSims threads ≠ 0 then
      ⟨.returned (some (.notDivisibleByThreads numSims threads)), []⟩
    else if batchSize = 0 then ⟨.panicked .divideByZero, []⟩
    else
      let batchesPerThread := goDiv simsPerThread batchSize
      if goMod simsPerThread batchSize ≠ 0 then
        ⟨.returned (some (.notDivisibleByBatchSize simsPerThread batchSize)), []⟩
      else if makechanPanics maxMem threads then ⟨.panicked .makechanSize, []⟩
      else
        let worker := fun (id : Nat) =>
          goroutine rb simsPerThread batchesPerThread batchSize compress id
        let resultChan := sched.map (fun id => (worker id).err)
        ⟨.returned (collect resultChan), (List.range threads.toNat).map worker⟩

/-! ## Default flag values of `cmd/simulator/main.go` -/

/-- Default of the flag `-sims`. -/
def defaultSims : Int := 100000

/-- Default of the flag `-threads`. -/
def defaultThreads : Int := 10

/-- Default of the flag `-batch`. -/
def defaultBatch : Int := 50000

/-! ## Specification vocabulary -/

/-- A valid request: positive sizes that fit a Go `int` and satisfy both
divisibility conditions. -/
def ValidRequest (numSims threads batchSize : Int) : Prop :=
  IsInt numSims ∧ 0 < numSims ∧ 0 < threads ∧ 0 < batchSize ∧
    numSims % threads = 0 ∧ (numSims / threads) % batchSize = 0

instance (n t b : Int) : Decidable (ValidRequest n t b) := by
  unfold ValidRequest; infer_instance

/-- The trial index `i` lies in the partition handed to worker `w`. -/
def ThreadRun.owns {E : Type} (w : ThreadRun E) (i : Int) : Bool :=
  decide (w.startSim ≤ i ∧ i < w.startSim + w.numBatches * w.batchSize)

/-- The trial index `i` lies in the batch of the call `c`. -/
def BatchCall.covers (c : BatchCall) (i : Int) : Bool :=
  decide (c.startSim ≤ i ∧ i < c.startSim + c.batchSize)

/-- The call that `runThread` makes for loop index `j`. -/
def batchCallAt (threadID startSim batchSize : Int) (compress : Bool) (j : Nat) : BatchCall :=
  ⟨j, threadID, goAdd startSim (goMul j batchSize), batchSize, compress⟩

/-- The result of `runBatch` for loop index `j` of a worker. -/
def batchResult {E : Type} (rb : RunBatchFn E) (threadID startSim batchSize : Int)
    (compress : Bool) (j : Nat) : Option E :=
  rb threadID (goAdd startSim (goMul j batchSize)) batchSize compress

/-- All `runBatch` calls made during a run, worker by worker. -/
def RunResult.executed {E : Type} (r : RunResult E) : List BatchCall :=
  (r.workers.map fun w => w.calls).flatten

/-- A `runBatch` that fails, with cause `7`, exactly on the calls whose
`(threadID, startSim)` is in the list `l`. -/
def failOn (l : List (Int × Int)) : RunBatchFn Nat :=
  fun th s _ _ => if l.contains (th, s) then some 7 else none

/-! ## Arithmetic lemmas -/

theorem wrapInt_of_isInt {x : Int} (h : IsInt x) : wrapInt x = x := by
  unfold IsInt at h
  unfold wrapInt
  omega

theorem valid_facts {n t b : Int} (h : ValidRequest n t b) :
    t ≠ 0 ∧ b ≠ 0 ∧ ¬ t < 0 ∧ goMod n t = 0 ∧ goDiv n t = n / t ∧
      goMod (n / t) b = 0 ∧ goDiv (n / t) b = n / t / b ∧
      t * (n / t) = n ∧ n / t / b * b = n / t ∧ 0 < n / t ∧ 0 < n / t / b := by
  obtain ⟨hi, hn, ht, hb, h1, h2⟩ := h
  have e1 : t * (n / t) = n := by
    have := Int.ediv_add_emod n t
    omega
  have e2 : n / t / b * b = n / t := by
    have := Int.ediv_add_emod (n / t) b
    rw [mul_comm]
    omega
  have p1 : 0 < n / t := by
    by_contra hc
    have hc2 : n / t ≤ 0 := by omega
    have := mul_nonpos_of_nonneg_of_nonpos (le_of_lt ht) hc2
    omega
  have p2 : 0 < n / t / b := by
    by_contra hc
    have hc2 : n / t / b ≤ 0 := by omega
    have := mul_nonpos_of_nonpos_of_nonneg hc2 (le_of_lt hb)
    omega
  have q1 : n / t ≤ n := by
    have : 1 * (n / t) ≤ t * (n / t) := mul_le_mul_of_nonneg_right (by omega) (le_of_lt p1)
    omega
  have q2 : n / t / b ≤ n / t := by
    have : n / t / b * 1 ≤ n / t / b * b := mul_le_mul_of_nonneg_left (by omega) (le_of_lt p2)
    omega
  unfold IsInt at hi
  refine ⟨by omega, by omega, by omega, ?_, ?_, ?_, ?_, e1, e2, p1, p2⟩
  · unfold goMod
    rw [Int.tmod_eq_emod (le_of_lt hn) (le_of_lt ht)]
    exact h1
  · unfold goDiv
    rw [Int.tdiv_eq_ediv (le_of_lt hn) (le_of_lt ht)]
    exact wrapInt_of_isInt ⟨by omega, by omega⟩
  · unfold goMod
    rw [Int.tmod_eq_emod (le_of_lt p1) (le_of_lt hb)]
    exact h2
  · unfold goDiv
    rw [Int.tdiv_eq_ediv (le_of_lt p1) (le_of_lt hb)]
    exact wrapInt_of_isInt ⟨by omega, by omega⟩

/-- Within a valid request the start of worker `k` does not overflow. -/
theorem valid_startSim {n t b : Int} (h : ValidRequest n t b) {k : Nat} (hk : (k : Int) < t) :
    goMul k (n / t) = k * (n / t) ∧ 0 ≤ (k : Int) * (n / t) ∧ (k : Int) * (n / t) + n / t ≤ n := by
  obtain ⟨_, _, _, _, _, _, _, e1, _, p1, _⟩ := valid_facts h
  have hi := h.1
  unfold IsInt at hi
  have h0 : 0 ≤ (k : Int) * (n / t) := mul_nonneg (by omega) (le_of_lt p1)
  have h1 : ((k : Int) + 1) * (n / t) ≤ t * (n / t) :=
    mul_le_mul_of_nonneg_right (by omega) (le_of_lt p1)
  have h2 : (k : Int) * (n / t) + n / t ≤ n := by
    have : ((k : Int) + 1) * (n / t) = k * (n / t) + n / t := by ring
    omega
  refine ⟨?_, h0, h2⟩
  unfold goMul
  exact wrapInt_of_isInt ⟨by omega, by omega⟩

/-- Within a valid request the start of batch `j` of worker `k` does not
overflow. -/
theorem valid_batchStart {n t b : Int} (h : ValidRequest n t b) {k j : Nat}
    (hk : (k : Int) < t) (hj : (j : Int) < n / t / b) :
    goAdd (goMul k (n / t)) (goMul j b) = k * (n / t) + j * b ∧
      0 ≤ (j : Int) * b ∧ (j : Int) * b + b ≤ n / t := by
  obtain ⟨_, _, _, _, _, _, _, _, e2, _, _⟩ := valid_facts h
  obtain ⟨s1, s2, s3⟩ := valid_startSim h hk
  have hb : 0 < b := h.2.2.2.1
  have hi := h.1
  unfold IsInt at hi
  have h0 : 0 ≤ (j : Int) * b := mul_nonneg (by omega) (le_of_lt hb)
  have h1 : ((j : Int) + 1) * b ≤ n / t / b * b :=
    mul_le_mul_of_nonneg_right (by omega) (le_of_lt hb)
  have h2 : (j : Int) * b + b ≤ n / t := by
    have : ((j : Int) + 1) * b = j * b + b := by ring
    omega
  refine ⟨?_, h0, h2⟩
  rw [s1]
  have m : goMul j b = j * b := by
    unfold goMul
    exact wrapInt_of_isInt ⟨by omega, by omega⟩
  rw [m]
  unfold goAdd
  exact wrapInt_of_isInt ⟨by omega, by omega⟩

/-- Counting the blocks `[a + k*s, a + k*s + s)`, `k < n`, that contain `i`. -/
theorem countP_range_blocks (a s i : Int) (hs : 0 < s) (n : Nat) :
    (List.range n).countP
        (fun (k : Nat) => decide (a + (k : Int) * s ≤ i ∧ i < a + (k : Int) * s + s)) =
      if a ≤ i ∧ i < a + (n : Int) * s then 1 else 0 := by
  induction n with
  | zero =>
    have : ¬ (a ≤ i ∧ i < a) := by omega
    simp [this]
  | succ m ih =>
    rw [List.range_succ, List.countP_append, ih, List.countP_singleton]
    have e : ((m + 1 : Nat) : Int) * s = (m : Int) * s + s := by push_cast; ring
    have hm : 0 ≤ (m : Int) * s := mul_nonneg (by omega) (le_of_lt hs)
    rw [e]
    generalize (m : Int) * s = q at hm ⊢
    by_cases c1 : a ≤ i ∧ i < a + q
    · have c2 : ¬ (a + q ≤ i ∧ i < a + q + s) := by omega
      have c3 : a ≤ i ∧ i < a + (q + s) := by omega
      simp [c1, c2, c3]
    · by_cases c2 : a + q ≤ i ∧ i < a + q + s
      · have c3 : a ≤ i ∧ i < a + (q + s) := by omega
        simp [c1, c2, c3]
      · have c3 : ¬ (a ≤ i ∧ i < a + (q + s)) := by omega
        simp [c1, c2, c3]

/-! ## The loop of `runThread` -/

theorem runThreadLoop_cases {E : Type} (rb : RunBatchFn E) (tid start bs : Int) (c : Bool)
    (l : List Nat) :
    (runThreadLoop rb tid start bs c l = (l.map (batchCallAt tid start bs c), none) ∧
        ∀ j ∈ l, batchResult rb tid start bs c j = none) ∨
      ∃ pre bi post cause, l = pre ++ bi :: post ∧
        (∀ j ∈ pre, batchResult rb tid start bs c j = none) ∧
        batchResult rb tid start bs c bi = some cause ∧
        runThreadLoop rb tid start bs c l =
          ((pre ++ [bi]).map (batchCallAt tid start bs c), some (.batchFailed bi cause)) := by
  induction l with
  | nil => left; simp [runThreadLoop]
  | cons a rest ih =>
    cases hr : rb tid (goAdd start (goMul a bs)) bs c with
    | some err =>
      right
      refine ⟨[], a, rest, err, rfl, by simp, hr, ?_⟩
      simp [runThreadLoop, hr, batchCallAt]
    | none =>
      rcases ih with ⟨h1, h2⟩ | ⟨pre, bi, post, cause, h1, h2, h3, h4⟩
      · left
        refine ⟨?_, ?_⟩
        · simp [runThreadLoop, hr, h1, batchCallAt]
        · intro j hj
          rcases List.mem_cons.mp hj with rfl | hj
          · exact hr
          · exact h2 j hj
      · right
        refine ⟨a :: pre, bi, post, cause, by simp [h1], ?_, h3, ?_⟩
        · intro j hj
          rcases List.mem_cons.mp hj with rfl | hj
          · exact hr
          · exact h2 j hj
        · simp [runThreadLoop, hr, h4, batchCallAt]

theorem range_split {N : Nat} {pre post : List Nat} {bi : Nat}
    (h : List.range N = pre ++ bi :: post) : pre = List.range bi ∧ bi < N := by
  have hlen : pre.length + (post.length + 1) = N := by
    have := congrArg List.length h
    simpa using this.symm
  have hb : (List.range N)[pre.length]? = some bi := by
    rw [h, List.getElem?_append_right (le_refl _)]
    simp
  rw [List.getElem?_range (by omega)] at hb
  have hbi : pre.length = bi := by simpa using hb
  have ht := congrArg (List.take pre.length) h
  rw [List.take_range] at ht
  simp at ht
  have : min pre.length N = bi := by omega
  rw [this] at ht
  exact ⟨ht.symm, by omega⟩

/-- The two ways in which `runThread` ends: all batches ran, or the loop
stopped at the first failing batch. -/
theorem runThread_cases {E : Type} (rb : RunBatchFn E) (tid start nb bs : Int) (c : Bool) :
    (runThread rb tid start nb bs c =
          ((List.range nb.toNat).map (batchCallAt tid start bs c), none) ∧
        ∀ j, j < nb.toNat → batchResult rb tid start bs c j = none) ∨
      ∃ bi cause, bi < nb.toNat ∧
        (∀ j, j < bi → batchResult rb tid start bs c j = none) ∧
        batchResult rb tid start bs c bi = some cause ∧
        runThread rb tid start nb bs c =
          ((List.range (bi + 1)).map (batchCallAt tid start bs c),
            some (.batchFailed bi cause)) := by
  unfold runThread
  rcases runThreadLoop_cases rb tid start bs c (List.range nb.toNat) with
    ⟨h1, h2⟩ | ⟨pre, bi, post, cause, h1, h2, h3, h4⟩
  · left
    exact ⟨h1, fun j hj => h2 j (List.mem_range.mpr hj)⟩
  · right
    obtain ⟨hp, hlt⟩ := range_split h1
    subst hp
    refine ⟨bi, cause, hlt, fun j hj => h2 j (List.mem_range.mpr hj), h3, ?_⟩
    rw [h4, List.range_succ]

/-- The calls of `runThread` are always an initial segment of its batch plan. -/
theorem runThread_calls {E : Type} (rb : RunBatchFn E) (tid start nb bs : Int) (c : Bool) :
    ∃ m, m ≤ nb.toNat ∧
      (runThread rb tid start nb bs c).1 = (List.range m).map (batchCallAt tid start bs c) := by
  rcases runThread_cases rb tid start nb bs c with ⟨h1, _⟩ | ⟨bi, cause, h1, _, _, h4⟩
  · exact ⟨nb.toNat, le_refl _, by rw [h1]⟩
  · exact ⟨bi + 1, h1, by rw [h4]⟩

/-! ## `Run` on a valid request -/

theorem Run_valid {E : Type} (maxMem : Int) (rb : RunBatchFn E) {n t b : Int} (c : Bool)
    (sched : List Nat) (h : ValidRequest n t b) (hcap : makechanPanics maxMem t = false) :
    Run maxMem rb n t b c sched =
      ⟨.returned (collect (sched.map fun id =>
          (goroutine rb (n / t) (n / t / b) b c (id : Nat)).err)),
        (List.range t.toNat).map fun id => goroutine rb (n / t) (n / t / b) b c (id : Nat)⟩ := by
  obtain ⟨f1, f2, f3, f4, f5, f6, f7, -⟩ := valid_facts h
  unfold Run
  simp only [f5, f7, f4, f6]
  simp [f1, f2, hcap]

/-- A valid request whose channel cannot be allocated: `Run` panics in `make`
before any worker starts. -/
theorem Run_valid_panic {E : Type} (maxMem : Int) (rb : RunBatchFn E) {n t b : Int} (c : Bool)
    (sched : List Nat) (h : ValidRequest n t b) (hcap : makechanPanics maxMem t = true) :
    Run maxMem rb n t b c sched = ⟨.panicked .makechanSize, []⟩ := by
  obtain ⟨f1, f2, f3, f4, f5, f6, f7, -⟩ := valid_facts h
  unfold Run
  simp only [f5, f7, f4, f6]
  simp [f1, f2, hcap]

theorem collect_eq_none {E : Type} (ch : List (Option (GoError E))) :
    collect ch = none ↔ ∀ e ∈ ch, e = none := by
  induction ch with
  | nil => simp [collect]
  | cons a rest ih =>
    cases a with
    | none => simp [collect, ih]
    | some err => simp [collect]

theorem collect_eq_some {E : Type} (ch : List (Option (GoError E))) (err : GoError E)
    (h : collect ch = some err) : ∃ e, some e ∈ ch ∧ err = .threadError e := by
  induction ch with
  | nil => simp [collect] at h
  | cons a rest ih =>
    cases a with
    | none =>
      simp only [collect] at h
      obtain ⟨e, he, hw⟩ := ih h
      exact ⟨e, List.mem_cons_of_mem _ he, hw⟩
    | some e0 =>
      simp only [collect, Option.some.injEq] at h
      exact ⟨e0, List.mem_cons_self _ _, h.symm⟩

/-- The workers that `Run` starts on a valid request. -/
theorem Run_valid_workers {E : Type} (maxMem : Int) (rb : RunBatchFn E) {n t b : Int} (c : Bool)
    (sched : List Nat) (h : ValidRequest n t b) {k : Nat} {w : ThreadRun E}
    (hw : (Run maxMem rb n t b c sched).workers[k]? = some w) :
    (k : Int) < t ∧ w = goroutine rb (n / t) (n / t / b) b c (k : Nat) ∧
      makechanPanics maxMem t = false := by
  cases hcap : makechanPanics maxMem t with
  | true =>
    rw [Run_valid_panic maxMem rb c sched h hcap] at hw
    simp at hw
  | false =>
  refine (fun (p : (k : Int) < t ∧ w = goroutine rb (n / t) (n / t / b) b c (k : Nat)) =>
    ⟨p.1, p.2, rfl⟩) ?_
  rw [Run_valid maxMem rb c sched h hcap] at hw
  simp only [List.getElem?_map] at hw
  have ht : 0 < t := h.2.2.1
  by_cases hk : k < t.toNat
  · rw [List.getElem?_range hk] at hw
    simp only [Option.map_some', Option.some.injEq] at hw
    exact ⟨by omega, hw.symm⟩
  · rw [List.getElem?_eq_none (by simpa using hk)] at hw
    simp at hw

theorem sum_map_const_int {α : Type} (l : List α) (f : α → Int) (v : Int)
    (h : ∀ x ∈ l, f x = v) : (l.map f).sum = l.length * v := by
  induction l with
  | nil => simp
  | cons a rest ih =>
    have h1 := h a (List.mem_cons_self _ _)
    have h2 := ih (fun x hx => h x (List.mem_cons_of_mem _ hx))
    simp only [List.map_cons, List.sum_cons, List.length_cons, h1, h2]
    push_cast
    ring

/-! ## The claims -/

/-- C1, amended. For every valid request whose channel can be allocated
(`make(chan error, threads)` does not panic) the partitions that `Run` hands to
its workers exactly tile `[0, numSims)`: there are `threads` workers, worker `k`
has id `k`, start `k * (numSims / threads)` and `numSims / threads` trials, and
runs `runThread` on them; every trial index in `[0, numSims)` lies in exactly
one worker's range, no range leaves `[0, numSims)`, and the trial counts sum to
`numSims`. -/
theorem Run_partitions_tile {E : Type} (maxMem : Int) (rb : RunBatchFn E) (n t b : Int)
    (c : Bool) (sched : List Nat) (h : ValidRequest n t b)
    (hcap : makechanPanics maxMem t = false) :
    ((Run maxMem rb n t b c sched).workers.length = t.toNat) ∧
      (∀ (k : Nat) (w : ThreadRun E), (Run maxMem rb n t b c sched).workers[k]? = some w →
        w.threadID = k ∧ w.startSim = k * (n / t) ∧ w.numBatches * w.batchSize = n / t ∧
          (w.calls, w.err) =
            runThread rb w.threadID w.startSim w.numBatches w.batchSize c) ∧
      (∀ i : Int, 0 ≤ i → i < n →
        (Run maxMem rb n t b c sched).workers.countP (fun w => w.owns i) = 1) ∧
      (∀ i : Int, (∃ w ∈ (Run maxMem rb n t b c sched).workers, w.owns i = true) → 0 ≤ i ∧ i < n) ∧
      ((Run maxMem rb n t b c sched).workers.map (fun w => w.numBatches * w.batchSize)).sum = n := by
  obtain ⟨f1, f2, f3, f4, f5, f6, f7, e1, e2, p1, p2⟩ := valid_facts h
  have hT : ((t.toNat : Nat) : Int) = t := Int.toNat_of_nonneg (by omega)
  have key : ∀ (k : Nat), k < t.toNat →
      (goroutine rb (n / t) (n / t / b) b c (k : Nat)).startSim = k * (n / t) ∧
      (goroutine rb (n / t) (n / t / b) b c (k : Nat)).numBatches *
        (goroutine rb (n / t) (n / t / b) b c (k : Nat)).batchSize = n / t := by
    intro k hk
    have := valid_startSim h (k := k) (by omega)
    exact ⟨this.1, e2⟩
  refine ⟨?_, ?_, ?_, ?_, ?_⟩
  · rw [Run_valid maxMem rb c sched h hcap]
    simp
  · intro k w hw
    obtain ⟨hk, rfl, -⟩ := Run_valid_workers maxMem rb c sched h hw
    have := key k (by omega)
    exact ⟨rfl, this.1, this.2, rfl⟩
  · intro i hi0 hin
    rw [Run_valid maxMem rb c sched h hcap]
    simp only [List.countP_map]
    rw [List.countP_congr (q := fun (k : Nat) =>
      decide (0 + (k : Int) * (n / t) ≤ i ∧ i < 0 + (k : Int) * (n / t) + n / t))]
    · rw [countP_range_blocks 0 (n / t) i p1, hT, if_pos]
      rw [e1]
      omega
    · intro k hk
      have := key k (List.mem_range.mp hk)
      simp only [Function.comp, ThreadRun.owns, this.1, this.2, decide_eq_true_eq, zero_add]
  · rintro i ⟨w, hw, ho⟩
    rw [Run_valid maxMem rb c sched h hcap] at hw
    simp only [List.mem_map, List.mem_range] at hw
    obtain ⟨k, hk, rfl⟩ := hw
    have h1 := key k hk
    have h2 := valid_startSim h (k := k) (by omega)
    simp only [ThreadRun.owns, h1.1, h1.2, decide_eq_true_eq] at ho
    omega
  · rw [sum_map_const_int _ _ (n / t)]
    · rw [Run_valid maxMem rb c sched h hcap]
      simp only [List.length_map, List.length_range, hT]
      exact e1
    · intro w hw
      rw [Run_valid maxMem rb c sched h hcap] at hw
      simp only [List.mem_map, List.mem_range] at hw
      obtain ⟨k, hk, rfl⟩ := hw
      exact (key k hk).2

/-- Witness of C1, amended: the request `(12, 3, 2)` is valid, its channel can be
allocated, and its trial counts sum to 12. -/
theorem Run_partitions_tile_witness :
    ValidRequest 12 3 2 ∧ makechanPanics (2 ^ 48) 3 = false ∧
      ((Run (E := Nat) (2 ^ 48) runBatch 12 3 2 true [2, 0, 1]).workers.map
        (fun w => w.numBatches * w.batchSize)).sum = 12 :=
  ⟨by decide, by decide,
    (Run_partitions_tile (2 ^ 48) runBatch 12 3 2 true [2, 0, 1] (by decide)
      (by decide)).2.2.2.2⟩

/-- C1, counterexample. The request `numSims = 2^62`, `threads = 2^61`,
`batchSize = 1` is valid, but `16 * 2^61` overflows `uintptr`, so on every
platform `make(chan error, threads)` panics and `Run` hands out no partition:
trial index 0 lies in no worker's range and the trial counts sum to 0. -/
theorem Run_no_partitions_beyond_channel_limit :
    ValidRequest (2 ^ 62) (2 ^ 61) 1 ∧
      ∀ (maxMem : Int) (sched : List Nat),
        (Run (E := Nat) maxMem runBatch (2 ^ 62) (2 ^ 61) 1 true sched).outcome =
            .panicked .makechanSize ∧
          (Run (E := Nat) maxMem runBatch (2 ^ 62) (2 ^ 61) 1 true sched).workers = [] ∧
          (Run (E := Nat) maxMem runBatch (2 ^ 62) (2 ^ 61) 1 true sched).workers.countP
            (fun w => w.owns 0) ≠ 1 ∧
          ((Run (E := Nat) maxMem runBatch (2 ^ 62) (2 ^ 61) 1 true sched).workers.map
            (fun w => w.numBatches * w.batchSize)).sum ≠ 2 ^ 62 := by
  have hv : ValidRequest (2 ^ 62) (2 ^ 61) 1 := by decide
  refine ⟨hv, ?_⟩
  intro maxMem sched
  have hp : makechanPanics maxMem (2 ^ 61) = true := by
    simp only [makechanPanics, decide_eq_true_eq]
    right; left
    norm_num
  rw [Run_valid_panic maxMem runBatch true sched hv hp]
  refine ⟨rfl, rfl, by simp, by simp⟩

/-- The calls made by worker `k` of a valid request, with overflow-free
arithmetic: an initial segment of the batch plan. -/
theorem goroutine_calls {E : Type} (rb : RunBatchFn E) {n t b : Int} (c : Bool)
    (h : ValidRequest n t b) {k : Nat} (hk : (k : Int) < t) :
    ∃ m, m ≤ (n / t / b).toNat ∧
      (goroutine rb (n / t) (n / t / b) b c (k : Nat)).calls =
        (List.range m).map (fun (j : Nat) =>
          (⟨j, k, (k : Int) * (n / t) + (j : Int) * b, b, c⟩ : BatchCall)) ∧
      (m = (n / t / b).toNat ∨
        (goroutine rb (n / t) (n / t / b) b c (k : Nat)).err ≠ none) := by
  obtain ⟨-, -, -, -, -, -, -, -, -, -, p2⟩ := valid_facts h
  have hcases := runThread_cases rb (k : Int) (goMul k (n / t)) (n / t / b) b c
  have hmap : ∀ m, m ≤ (n / t / b).toNat →
      (List.range m).map (batchCallAt (k : Int) (goMul k (n / t)) b c) =
        (List.range m).map (fun (j : Nat) =>
          (⟨j, k, (k : Int) * (n / t) + (j : Int) * b, b, c⟩ : BatchCall)) := by
    intro m hm
    apply List.map_congr_left
    intro j hj
    have hj2 : (j : Int) < n / t / b := by
      have := List.mem_range.mp hj
      omega
    simp only [batchCallAt, (valid_batchStart h hk hj2).1]
  rcases hcases with ⟨h1, _⟩ | ⟨bi, cause, h1, _, _, h4⟩
  · refine ⟨(n / t / b).toNat, le_refl _, ?_, Or.inl rfl⟩
    simp only [goroutine, h1]
    exact hmap _ (le_refl _)
  · refine ⟨bi + 1, h1, ?_, Or.inr ?_⟩
    · simp only [goroutine, h4]
      exact hmap _ h1
    · simp [goroutine, h4]

/-- C2. For every valid request and every worker `k` that `Run` starts, when
no batch fails, the `runBatch` calls of that worker are batch `j = 0, 1, ...,
numBatches - 1` in this order, batch `j` starting at `startSim + j * batchSize`
with size `batchSize`; they exactly tile the worker's partition
`[startSim, startSim + numSims / threads)`: every index of the partition lies
in exactly one batch and no batch leaves the partition. -/
theorem runThread_batches_tile {E : Type} (maxMem : Int) (rb : RunBatchFn E) (n t b : Int) (c : Bool)
    (sched : List Nat) (h : ValidRequest n t b)
    (hrb : ∀ th s bs cp, rb th s bs cp = none)
    (k : Nat) (w : ThreadRun E) (hw : (Run maxMem rb n t b c sched).workers[k]? = some w) :
    w.calls = (runThread rb w.threadID w.startSim w.numBatches w.batchSize c).1 ∧
      w.err = none ∧
      w.numBatches = n / t / b ∧
      (w.calls.length : Int) = w.numBatches ∧
      (w.calls.length : Int) * b = n / t ∧
      (∀ (j : Nat) (call : BatchCall), w.calls[j]? = some call →
        call = ⟨j, k, w.startSim + j * b, b, c⟩) ∧
      (∀ i : Int, w.startSim ≤ i → i < w.startSim + n / t →
        w.calls.countP (fun call => call.covers i) = 1) ∧
      (∀ i : Int, (∃ call ∈ w.calls, call.covers i = true) →
        w.startSim ≤ i ∧ i < w.startSim + n / t) := by
  obtain ⟨-, -, -, -, -, -, -, -, e2, -, p2⟩ := valid_facts h
  obtain ⟨hk, rfl, -⟩ := Run_valid_workers maxMem rb c sched h hw
  have hN : (((n / t / b).toNat : Nat) : Int) = n / t / b := Int.toNat_of_nonneg (by omega)
  obtain ⟨s1, -, -⟩ := valid_startSim h hk
  obtain ⟨m, hm, hcalls, hfull⟩ := goroutine_calls rb c h hk
  have herr : (goroutine rb (n / t) (n / t / b) b c (k : Nat)).err = none := by
    rcases runThread_cases rb (k : Int) (goMul k (n / t)) (n / t / b) b c with
      ⟨h1, _⟩ | ⟨bi, cause, _, _, h3, _⟩
    · simp [goroutine, h1]
    · simp [batchResult, hrb] at h3
  have hmN : m = (n / t / b).toNat := by
    rcases hfull with h1 | h1
    · exact h1
    · exact absurd herr h1
  subst hmN
  have hstart : (goroutine rb (n / t) (n / t / b) b c (k : Nat)).startSim = k * (n / t) := s1
  rw [hcalls, hstart]
  refine ⟨?_, herr, rfl, ?_, ?_, ?_, ?_, ?_⟩
  · rw [← hcalls, ← s1]
    rfl
  · simp only [List.length_map, List.length_range, hN]
    rfl
  · simp only [List.length_map, List.length_range, hN]
    exact e2
  · intro j call hj
    simp only [List.getElem?_map] at hj
    by_cases hjN : j < (n / t / b).toNat
    · rw [List.getElem?_range hjN] at hj
      simp only [Option.map_some', Option.some.injEq] at hj
      exact hj.symm
    · rw [List.getElem?_eq_none (by simpa using hjN)] at hj
      simp at hj
  · intro i hi0 hin
    simp only [List.countP_map]
    rw [List.countP_congr (q := fun (j : Nat) =>
      decide ((k : Int) * (n / t) + (j : Int) * b ≤ i ∧
        i < (k : Int) * (n / t) + (j : Int) * b + b))]
    · rw [countP_range_blocks _ b i h.2.2.2.1, hN, if_pos]
      rw [e2]
      omega
    · intro j _
      simp only [Function.comp, BatchCall.covers, decide_eq_true_eq]
  · rintro i ⟨call, hc, ho⟩
    simp only [List.mem_map, List.mem_range] at hc
    obtain ⟨j, hj, rfl⟩ := hc
    have h2 := valid_batchStart h hk (j := j) (by omega)
    simp only [BatchCall.covers, decide_eq_true_eq] at ho
    omega

/-- Witness of C2: worker 1 of the valid request `(12, 3, 2)` with the stub `runBatch`. -/
theorem runThread_batches_tile_witness :
    ValidRequest 12 3 2 ∧
      ∀ (w : ThreadRun Nat), (Run (2 ^ 48) runBatch 12 3 2 true [2, 0, 1]).workers[1]? = some w →
        ∀ i : Int, w.startSim ≤ i → i < w.startSim + 12 / 3 →
          w.calls.countP (fun call => call.covers i) = 1 :=
  ⟨by decide, fun w hw =>
    (runThread_batches_tile (2 ^ 48) runBatch 12 3 2 true [2, 0, 1] (by decide)
      (fun _ _ _ _ => rfl) 1 w hw).2.2.2.2.2.2.1⟩

/-- The six ways through `Run`, in the order of the source. -/
theorem Run_cases {E : Type} (maxMem : Int) (rb : RunBatchFn E) (n t b : Int) (c : Bool) (sched : List Nat) :
    (t = 0 ∧ Run maxMem rb n t b c sched = ⟨.panicked .divideByZero, []⟩) ∨
    (t ≠ 0 ∧ goMod n t ≠ 0 ∧
      Run maxMem rb n t b c sched = ⟨.returned (some (.notDivisibleByThreads n t)), []⟩) ∨
    (t ≠ 0 ∧ goMod n t = 0 ∧ b = 0 ∧ Run maxMem rb n t b c sched = ⟨.panicked .divideByZero, []⟩) ∨
    (t ≠ 0 ∧ goMod n t = 0 ∧ b ≠ 0 ∧ goMod (goDiv n t) b ≠ 0 ∧
      Run maxMem rb n t b c sched =
        ⟨.returned (some (.notDivisibleByBatchSize (goDiv n t) b)), []⟩) ∨
    (t ≠ 0 ∧ goMod n t = 0 ∧ b ≠ 0 ∧ goMod (goDiv n t) b = 0 ∧
      makechanPanics maxMem t = true ∧
      Run maxMem rb n t b c sched = ⟨.panicked .makechanSize, []⟩) ∨
    (makechanPanics maxMem t = false ∧ goMod n t = 0 ∧ b ≠ 0 ∧ goMod (goDiv n t) b = 0 ∧
      Run maxMem rb n t b c sched =
        ⟨.returned (collect (sched.map fun id =>
            (goroutine rb (goDiv n t) (goDiv (goDiv n t) b) b c (id : Nat)).err)),
          (List.range t.toNat).map fun id =>
            goroutine rb (goDiv n t) (goDiv (goDiv n t) b) b c (id : Nat)⟩) := by
  unfold Run
  by_cases h1 : t = 0
  · left; simp [h1]
  · right
    by_cases h2 : goMod n t = 0
    · right
      by_cases h3 : b = 0
      · left; simp [h1, h2, h3]
      · right
        by_cases h4 : goMod (goDiv n t) b = 0
        · right
          cases h5 : makechanPanics maxMem t with
          | true => left; simp [h1, h2, h3, h4, h5]
          | false =>
            right
            refine ⟨rfl, h2, h3, h4, ?_⟩
            simp [h1, h2, h3, h4, h5]
        · left; simp [h1, h2, h3, h4]
    · left; simp [h1, h2]

theorem collect_not_validation {E : Type} (ch : List (Option (GoError E))) (x y : Int) :
    collect ch ≠ some (.notDivisibleByThreads x y) ∧
      collect ch ≠ some (.notDivisibleByBatchSize x y) := by
  constructor
  · intro h
    obtain ⟨e, _, he⟩ := collect_eq_some ch _ h
    cases he
  · intro h
    obtain ⟨e, _, he⟩ := collect_eq_some ch _ h
    cases he

/-- C3. For every `numSims` and every `threads != 0`, `Run` returns the
"must be divisible by threads" error exactly when `numSims % threads != 0`
(and then with these two values and before any worker starts); `numSims =
100000` with `threads = 7` is rejected, and `numSims = 100000` with `threads =
10` never gets this error and, whenever the batch size passes its own check
and a channel of capacity 10 can be allocated, yields 10 partitions of 10000
trials each. -/
theorem Run_threads_check {E : Type} (maxMem : Int) (rb : RunBatchFn E) (n t b : Int) (c : Bool)
    (sched : List Nat) (ht : t ≠ 0) :
    ((∃ x y, (Run maxMem rb n t b c sched).outcome =
        .returned (some (.notDivisibleByThreads x y))) ↔ goMod n t ≠ 0) ∧
      (goMod n t ≠ 0 →
        Run maxMem rb n t b c sched = ⟨.returned (some (.notDivisibleByThreads n t)), []⟩) ∧
      ((Run maxMem rb 100000 7 b c sched).outcome =
        .returned (some (.notDivisibleByThreads 100000 7))) ∧
      (∀ x y, (Run maxMem rb 100000 10 b c sched).outcome ≠
        .returned (some (.notDivisibleByThreads x y))) ∧
      (0 < b → 10000 % b = 0 → makechanPanics maxMem 10 = false →
        (Run maxMem rb 100000 10 b c sched).workers.length = 10 ∧
        ∀ (k : Nat) (w : ThreadRun E), (Run maxMem rb 100000 10 b c sched).workers[k]? = some w →
          w.threadID = k ∧ w.startSim = k * 10000 ∧ w.numBatches * w.batchSize = 10000) := by
  have main : ∀ (n' t' : Int), t' ≠ 0 →
      ((∃ x y, (Run maxMem rb n' t' b c sched).outcome =
        .returned (some (.notDivisibleByThreads x y))) ↔ goMod n' t' ≠ 0) ∧
      (goMod n' t' ≠ 0 →
        Run maxMem rb n' t' b c sched = ⟨.returned (some (.notDivisibleByThreads n' t')), []⟩) := by
    intro n' t' ht'
    rcases Run_cases maxMem rb n' t' b c sched with ⟨h0, _⟩ | ⟨_, h1, h2⟩ | ⟨_, h1, _, h2⟩ |
      ⟨_, h1, _, _, h2⟩ | ⟨_, h1, _, _, _, h2⟩ | ⟨_, h1, _, _, h2⟩
    · exact absurd h0 ht'
    · exact ⟨⟨fun _ => h1, fun _ => ⟨n', t', by rw [h2]⟩⟩, fun _ => h2⟩
    · refine ⟨⟨?_, fun hc => absurd h1 hc⟩, fun hc => absurd h1 hc⟩
      rintro ⟨x, y, hxy⟩
      rw [h2] at hxy
      cases hxy
    · refine ⟨⟨?_, fun hc => absurd h1 hc⟩, fun hc => absurd h1 hc⟩
      rintro ⟨x, y, hxy⟩
      rw [h2] at hxy
      cases hxy
    · refine ⟨⟨?_, fun hc => absurd h1 hc⟩, fun hc => absurd h1 hc⟩
      rintro ⟨x, y, hxy⟩
      rw [h2] at hxy
      cases hxy
    · refine ⟨⟨?_, fun hc => absurd h1 hc⟩, fun hc => absurd h1 hc⟩
      rintro ⟨x, y, hxy⟩
      rw [h2] at hxy
      simp only [Outcome.returned.injEq] at hxy
      exact absurd hxy (collect_not_validation _ x y).1
  refine ⟨(main n t ht).1, (main n t ht).2, ?_, ?_, ?_⟩
  · rw [(main 100000 7 (by decide)).2 (by decide)]
  · intro x y hxy
    exact absurd ((main 100000 10 (by decide)).1.mp ⟨x, y, hxy⟩) (by decide)
  · intro hb hdiv hcap
    have hv : ValidRequest 100000 10 b := by
      have e : (100000 : Int) / 10 = 10000 := by norm_num
      refine ⟨by decide, by decide, by decide, hb, by decide, ?_⟩
      rw [e]
      exact hdiv
    refine ⟨?_, ?_⟩
    · rw [Run_valid maxMem rb c sched hv hcap]
      simp
    · intro k w hw
      obtain ⟨hk, rfl, -⟩ := Run_valid_workers maxMem rb c sched hv hw
      have e2 := (valid_facts hv).2.2.2.2.2.2.2.2.1
      have s1 := (valid_startSim hv hk).1
      have e : (100000 : Int) / 10 = 10000 := by norm_num
      rw [e] at e2 s1
      rw [e]
      exact ⟨rfl, s1, e2⟩

/-- Witness of C3: `numSims = 100000`, `threads = 7`. -/
theorem Run_threads_check_witness :
    (7 : Int) ≠ 0 ∧
      ((∃ x y, (Run (E := Nat) (2 ^ 48) runBatch 100000 7 1000 true []).outcome =
        .returned (some (.notDivisibleByThreads x y))) ↔ goMod 100000 7 ≠ 0) :=
  ⟨by decide, (Run_threads_check (2 ^ 48) runBatch 100000 7 1000 true [] (by decide)).1⟩

/-- C4. For every request with `threads != 0`, `batchSize != 0` and
`numSims % threads == 0`, `Run` returns the "simsPerThread must be divisible by
batchSize" error exactly when `(numSims / threads) % batchSize != 0` (and then
before any worker starts), also when `numSims` itself is divisible by
`batchSize`: the default flag values of the command line, `sims = 100000`,
`threads = 10`, `batch = 50000`, are rejected although `100000 % 50000 == 0`. -/
theorem Run_batch_check {E : Type} (maxMem : Int) (rb : RunBatchFn E) (n t b : Int) (c : Bool)
    (sched : List Nat) (ht : t ≠ 0) (hb : b ≠ 0) (hdiv : goMod n t = 0) :
    ((∃ x y, (Run maxMem rb n t b c sched).outcome =
        .returned (some (.notDivisibleByBatchSize x y))) ↔ goMod (goDiv n t) b ≠ 0) ∧
      (goMod (goDiv n t) b ≠ 0 →
        Run maxMem rb n t b c sched =
          ⟨.returned (some (.notDivisibleByBatchSize (goDiv n t) b)), []⟩) ∧
      (defaultSims = 100000 ∧ defaultThreads = 10 ∧ defaultBatch = 50000) ∧
      goMod defaultSims defaultBatch = 0 ∧
      Run maxMem rb defaultSims defaultThreads defaultBatch c sched =
        ⟨.returned (some (.notDivisibleByBatchSize 10000 50000)), []⟩ := by
  have main : ∀ (n' t' b' : Int), t' ≠ 0 → b' ≠ 0 → goMod n' t' = 0 →
      ((∃ x y, (Run maxMem rb n' t' b' c sched).outcome =
        .returned (some (.notDivisibleByBatchSize x y))) ↔ goMod (goDiv n' t') b' ≠ 0) ∧
      (goMod (goDiv n' t') b' ≠ 0 →
        Run maxMem rb n' t' b' c sched =
          ⟨.returned (some (.notDivisibleByBatchSize (goDiv n' t') b')), []⟩) := by
    intro n' t' b' ht' hb' hdiv'
    rcases Run_cases maxMem rb n' t' b' c sched with ⟨h0, _⟩ | ⟨_, h1, _⟩ | ⟨_, _, h0, _⟩ |
      ⟨_, _, _, h1, h2⟩ | ⟨_, _, _, h1, _, h2⟩ | ⟨_, _, _, h1, h2⟩
    · exact absurd h0 ht'
    · exact absurd hdiv' h1
    · exact absurd h0 hb'
    · exact ⟨⟨fun _ => h1, fun _ => ⟨_, _, by rw [h2]⟩⟩, fun _ => h2⟩
    · refine ⟨⟨?_, fun hc => absurd h1 hc⟩, fun hc => absurd h1 hc⟩
      rintro ⟨x, y, hxy⟩
      rw [h2] at hxy
      cases hxy
    · refine ⟨⟨?_, fun hc => absurd h1 hc⟩, fun hc => absurd h1 hc⟩
      rintro ⟨x, y, hxy⟩
      rw [h2] at hxy
      simp only [Outcome.returned.injEq] at hxy
      exact absurd hxy (collect_not_validation _ x y).2
  refine ⟨(main n t b ht hb hdiv).1, (main n t b ht hb hdiv).2, ⟨rfl, rfl, rfl⟩, by decide, ?_⟩
  have := (main defaultSims defaultThreads defaultBatch (by decide) (by decide) (by decide)).2
    (by decide)
  rw [this]
  have e : goDiv defaultSims defaultThreads = 10000 := by decide
  rw [e]
  rfl

/-- Witness of C4: the default flag values. -/
theorem Run_batch_check_witness :
    (10 : Int) ≠ 0 ∧ (50000 : Int) ≠ 0 ∧ goMod 100000 10 = 0 ∧
      ((∃ x y, (Run (E := Nat) (2 ^ 48) runBatch 100000 10 50000 true []).outcome =
        .returned (some (.notDivisibleByBatchSize x y))) ↔
          goMod (goDiv 100000 10) 50000 ≠ 0) :=
  ⟨by decide, by decide, by decide,
    (Run_batch_check (2 ^ 48) runBatch 100000 10 50000 true [] (by decide) (by decide) (by decide)).1⟩

/-- C5, evaluation of the code. `Run` panics on requests that violate the
partitioning invariant, whatever the allocation limit of the platform:
`threads = 0` divides by zero in `numSims / threads`, `batchSize = 0` divides by
zero in `simsPerThread / batchSize`, and a negative `threads` that passes both
checks reaches `make(chan error, threads)` with a negative capacity. -/
theorem Run_panics_on_invalid_request (maxMem : Int) :
    (Run (E := Nat) maxMem runBatch 100000 0 50000 true []).outcome =
        .panicked .divideByZero ∧
      (Run (E := Nat) maxMem runBatch 100000 10 0 true []).outcome =
        .panicked .divideByZero ∧
      (Run (E := Nat) maxMem runBatch 100000 (-10) 1000 true []).outcome =
        .panicked .makechanSize := by
  have m1 : goMod 100000 10 = 0 := by decide
  have m2 : goMod 100000 (-10) = 0 := by decide
  have m3 : goMod (goDiv 100000 (-10)) 1000 = 0 := by decide
  have m4 : makechanPanics maxMem (-10) = true := by
    simp [makechanPanics]
  refine ⟨?_, ?_, ?_⟩
  · simp [Run]
  · simp [Run, m1]
  · simp [Run, m2, m3, m4]

/-- C6. Whenever `Run` returns a validation error (either divisibility
check fails), no worker goroutine has been started and no `runBatch` call has
been made: the trace of executed batches is empty. -/
theorem Run_validation_no_execution {E : Type} (maxMem : Int) (rb : RunBatchFn E) (n t b : Int) (c : Bool)
    (sched : List Nat) (x y : Int)
    (h : (Run maxMem rb n t b c sched).outcome = .returned (some (.notDivisibleByThreads x y)) ∨
      (Run maxMem rb n t b c sched).outcome = .returned (some (.notDivisibleByBatchSize x y))) :
    (Run maxMem rb n t b c sched).workers = [] ∧ (Run maxMem rb n t b c sched).executed = [] := by
  have hw : (Run maxMem rb n t b c sched).workers = [] := by
    rcases Run_cases maxMem rb n t b c sched with ⟨_, h2⟩ | ⟨_, _, h2⟩ | ⟨_, _, _, h2⟩ |
      ⟨_, _, _, _, h2⟩ | ⟨_, _, _, _, _, h2⟩ | ⟨_, _, _, _, h2⟩
    · rw [h2]
    · rw [h2]
    · rw [h2]
    · rw [h2]
    · rw [h2]
    · rw [h2] at h
      simp only [Outcome.returned.injEq] at h
      rcases h with h | h
      · exact absurd h (collect_not_validation _ x y).1
      · exact absurd h (collect_not_validation _ x y).2
  exact ⟨hw, by simp [RunResult.executed, hw]⟩

/-- Witness of C6: the default flag values are rejected and nothing is executed. -/
theorem Run_validation_no_execution_witness :
    ((Run (E := Nat) (2 ^ 48) runBatch 100000 10 50000 true [3, 1]).outcome =
          .returned (some (.notDivisibleByThreads 10000 50000)) ∨
        (Run (E := Nat) (2 ^ 48) runBatch 100000 10 50000 true [3, 1]).outcome =
          .returned (some (.notDivisibleByBatchSize 10000 50000))) ∧
      (Run (E := Nat) (2 ^ 48) runBatch 100000 10 50000 true [3, 1]).workers = [] ∧
      (Run (E := Nat) (2 ^ 48) runBatch 100000 10 50000 true [3, 1]).executed = [] :=
  ⟨Or.inr (by decide),
    Run_validation_no_execution (2 ^ 48) runBatch 100000 10 50000 true [3, 1] 10000 50000
      (Or.inr (by decide))⟩

/-- The error of worker `k` of a valid request, with overflow-free arithmetic:
`nil` when none of its batches fails, otherwise tagged with its first failing
batch. -/
theorem goroutine_err_cases {E : Type} (rb : RunBatchFn E) {n t b : Int} (c : Bool)
    (h : ValidRequest n t b) {k : Nat} (hk : (k : Int) < t) :
    ((goroutine rb (n / t) (n / t / b) b c (k : Nat)).err = none ∧
        ∀ j : Nat, (j : Int) < n / t / b →
          rb k ((k : Int) * (n / t) + (j : Int) * b) b c = none) ∨
      ∃ (bi : Nat) (cause : E), (bi : Int) < n / t / b ∧
        (∀ j : Nat, j < bi → rb k ((k : Int) * (n / t) + (j : Int) * b) b c = none) ∧
        rb k ((k : Int) * (n / t) + (bi : Int) * b) b c = some cause ∧
        (goroutine rb (n / t) (n / t / b) b c (k : Nat)).err =
          some (.batchFailed bi cause) := by
  have conv : ∀ j : Nat, (j : Int) < n / t / b →
      batchResult rb (k : Int) (goMul k (n / t)) b c j =
        rb k ((k : Int) * (n / t) + (j : Int) * b) b c := by
    intro j hj
    have := (valid_batchStart h hk hj).1
    simp only [batchResult]
    rw [this]
  rcases runThread_cases rb (k : Int) (goMul k (n / t)) (n / t / b) b c with
    ⟨h1, h2⟩ | ⟨bi, cause, h1, h2, h3, h4⟩
  · left
    refine ⟨by simp [goroutine, h1], ?_⟩
    intro j hj
    rw [← conv j hj]
    exact h2 j (by omega)
  · right
    have hbi : (bi : Int) < n / t / b := by omega
    refine ⟨bi, cause, hbi, ?_, ?_, by simp [goroutine, h4]⟩
    · intro j hj
      rw [← conv j (by omega)]
      exact h2 j hj
    · rw [← conv bi hbi]
      exact h3

theorem block_index_unique (s b : Int) (k1 k2 j1 j2 : Nat) (hb : 0 < b)
    (h1 : (j1 : Int) * b + b ≤ s) (h2 : (j2 : Int) * b + b ≤ s)
    (heq : (k1 : Int) * s + (j1 : Int) * b = (k2 : Int) * s + (j2 : Int) * b) :
    k1 = k2 ∧ j1 = j2 := by
  have a1 : 0 ≤ (j1 : Int) * b := mul_nonneg (by omega) (le_of_lt hb)
  have a2 : 0 ≤ (j2 : Int) * b := mul_nonneg (by omega) (le_of_lt hb)
  have hs : 0 ≤ s := by omega
  have hk : k1 = k2 := by
    rcases lt_trichotomy k1 k2 with hlt | heq2 | hgt
    · have : ((k1 : Int) + 1) * s ≤ (k2 : Int) * s :=
        mul_le_mul_of_nonneg_right (by omega) hs
      have e : ((k1 : Int) + 1) * s = (k1 : Int) * s + s := by ring
      omega
    · exact heq2
    · have : ((k2 : Int) + 1) * s ≤ (k1 : Int) * s :=
        mul_le_mul_of_nonneg_right (by omega) hs
      have e : ((k2 : Int) + 1) * s = (k2 : Int) * s + s := by ring
      omega
  subst hk
  refine ⟨rfl, ?_⟩
  have hj : (j1 : Int) * b = (j2 : Int) * b := by omega
  have := mul_right_cancel₀ (ne_of_gt hb) hj
  exact_mod_cast this

/-- C7. For every valid request no two `runBatch` invocations of one run
receive the same batch key: every call of worker `k` carries `threadID = k`,
and two calls with the same global `batchStart` (hence also two calls with the
same pair `(threadID, batchStart)`) are the same call of the same worker; in
particular batches of different workers never share a `batchStart`. -/
theorem Run_batch_keys_distinct {E : Type} (maxMem : Int) (rb : RunBatchFn E) (n t b : Int) (c : Bool)
    (sched : List Nat) (h : ValidRequest n t b) :
    ∀ (k1 k2 j1 j2 : Nat) (w1 w2 : ThreadRun E) (c1 c2 : BatchCall),
      (Run maxMem rb n t b c sched).workers[k1]? = some w1 →
      (Run maxMem rb n t b c sched).workers[k2]? = some w2 →
      w1.calls[j1]? = some c1 → w2.calls[j2]? = some c2 →
      (c1.threadID = k1 ∧ c2.threadID = k2) ∧
        (c1.startSim = c2.startSim → k1 = k2 ∧ j1 = j2) ∧
        ((c1.threadID, c1.startSim) = (c2.threadID, c2.startSim) → k1 = k2 ∧ j1 = j2) ∧
        (k1 ≠ k2 → c1.startSim ≠ c2.startSim) := by
  intro k1 k2 j1 j2 w1 w2 c1 c2 hw1 hw2 hc1 hc2
  have call_at : ∀ (k j : Nat) (w : ThreadRun E) (call : BatchCall),
      (Run maxMem rb n t b c sched).workers[k]? = some w → w.calls[j]? = some call →
      (j : Int) < n / t / b ∧ (k : Int) < t ∧
        call = ⟨j, k, (k : Int) * (n / t) + (j : Int) * b, b, c⟩ := by
    intro k j w call hw hc
    obtain ⟨hk, rfl, -⟩ := Run_valid_workers maxMem rb c sched h hw
    obtain ⟨m, hm, hcalls, -⟩ := goroutine_calls rb c h hk
    rw [hcalls] at hc
    simp only [List.getElem?_map] at hc
    by_cases hjm : j < m
    · rw [List.getElem?_range hjm] at hc
      simp only [Option.map_some', Option.some.injEq] at hc
      exact ⟨by omega, hk, hc.symm⟩
    · rw [List.getElem?_eq_none (by simpa using hjm)] at hc
      simp at hc
  obtain ⟨hj1, hk1, rfl⟩ := call_at k1 j1 w1 c1 hw1 hc1
  obtain ⟨hj2, hk2, rfl⟩ := call_at k2 j2 w2 c2 hw2 hc2
  have b1 := valid_batchStart h hk1 hj1
  have b2 := valid_batchStart h hk2 hj2
  have main : (k1 : Int) * (n / t) + (j1 : Int) * b = (k2 : Int) * (n / t) + (j2 : Int) * b →
      k1 = k2 ∧ j1 = j2 :=
    block_index_unique (n / t) b k1 k2 j1 j2 h.2.2.2.1 b1.2.2 b2.2.2
  refine ⟨⟨rfl, rfl⟩, main, ?_, ?_⟩
  · intro hp
    exact main (Prod.mk.inj hp).2
  · intro hne heq
    exact hne (main heq).1

/-- Witness of C7: batch 1 of worker 0 and batch 0 of worker 2 of the request `(12, 3, 2)`. -/
theorem Run_batch_keys_distinct_witness :
    ValidRequest 12 3 2 ∧
      ∀ (w1 w2 : ThreadRun Nat) (c1 c2 : BatchCall),
        (Run (2 ^ 48) runBatch 12 3 2 true [2, 0, 1]).workers[0]? = some w1 →
        (Run (2 ^ 48) runBatch 12 3 2 true [2, 0, 1]).workers[2]? = some w2 →
        w1.calls[1]? = some c1 → w2.calls[0]? = some c2 → c1.startSim ≠ c2.startSim :=
  ⟨by decide, fun w1 w2 c1 c2 h1 h2 h3 h4 =>
    (Run_batch_keys_distinct (2 ^ 48) runBatch 12 3 2 true [2, 0, 1] (by decide)
      0 2 1 0 w1 w2 c1 c2 h1 h2 h3 h4).2.2.2 (by decide)⟩

/-- The error and the calls of worker `k` of a valid request are those of
`runThread` on the partition of worker `k`. -/
theorem goroutine_eq_runThread {E : Type} (rb : RunBatchFn E) {n t b : Int} (c : Bool)
    (h : ValidRequest n t b) {k : Nat} (hk : (k : Int) < t) :
    goroutine rb (n / t) (n / t / b) b c (k : Nat) =
      ⟨k, (k : Int) * (n / t), n / t / b, b,
        (runThread rb k ((k : Int) * (n / t)) (n / t / b) b c).1,
        (runThread rb k ((k : Int) * (n / t)) (n / t / b) b c).2⟩ := by
  simp only [goroutine, (valid_startSim h hk).1]

/-- The result of worker `k` of a valid request is `nil` exactly when none of
its batches fails. -/
theorem runThread_eq_none_iff {E : Type} (rb : RunBatchFn E) {n t b : Int} (c : Bool)
    (h : ValidRequest n t b) {k : Nat} (hk : (k : Int) < t) :
    (runThread rb k ((k : Int) * (n / t)) (n / t / b) b c).2 = none ↔
      ∀ j : Nat, (j : Int) < n / t / b →
        rb k ((k : Int) * (n / t) + (j : Int) * b) b c = none := by
  have he : (goroutine rb (n / t) (n / t / b) b c (k : Nat)).err =
      (runThread rb k ((k : Int) * (n / t)) (n / t / b) b c).2 := by
    rw [goroutine_eq_runThread rb c h hk]
  rw [← he]
  rcases goroutine_err_cases rb c h hk with ⟨h1, h2⟩ | ⟨bi, cause, g1, _, g3, g4⟩
  · exact ⟨fun _ => h2, fun _ => h1⟩
  · constructor
    · intro hn
      rw [g4] at hn
      cases hn
    · intro hall
      rw [hall bi g1] at g3
      cases g3

/-- The loop over `resultChan`, along the delivery order: either every result is
`nil`, or the first result that is an error is returned, wrapped. -/
theorem collect_map_cases {E : Type} (f : Nat → Option (GoError E)) (sched : List Nat) :
    (collect (sched.map f) = none ∧ ∀ k ∈ sched, f k = none) ∨
      ∃ pre k post e, sched = pre ++ k :: post ∧ (∀ k2 ∈ pre, f k2 = none) ∧
        f k = some e ∧ collect (sched.map f) = some (.threadError e) := by
  induction sched with
  | nil => left; simp [collect]
  | cons a rest ih =>
    cases ha : f a with
    | some e =>
      right
      exact ⟨[], a, rest, e, rfl, by simp, ha, by simp [collect, ha]⟩
    | none =>
      rcases ih with ⟨h1, h2⟩ | ⟨pre, k, post, e, h1, h2, h3, h4⟩
      · left
        refine ⟨by simp [collect, ha, h1], ?_⟩
        intro k hk
        rcases List.mem_cons.mp hk with rfl | hk
        · exact ha
        · exact h2 k hk
      · right
        refine ⟨a :: pre, k, post, e, by simp [h1], ?_, h3, by simp [collect, ha, h4]⟩
        intro k2 hk2
        rcases List.mem_cons.mp hk2 with rfl | hk2
        · exact ha
        · exact h2 k2 hk2

/-- C8, amended. Errors are not swallowed by aggregation: for every valid
request whose channel can be allocated (`make(chan error, threads)` does not
panic) and every order in which the workers deliver their results, `Run` starts
`threads` workers, worker `k` running `runThread` on its own partition and
recording its calls and its result; `Run` returns (it does not panic); it
returns `nil` if and only if every worker's `runThread` returned `nil`, which
is the case if and only if no batch of any worker fails; and when some
worker's `runThread` returned an error, `Run` returns "thread error" wrapping
the error that the `runThread` of one of the workers returned. -/
theorem Run_aggregates_errors {E : Type} (maxMem : Int) (rb : RunBatchFn E) (n t b : Int)
    (c : Bool) (sched : List Nat) (h : ValidRequest n t b)
    (hcap : makechanPanics maxMem t = false) (hs : sched.Perm (List.range t.toNat)) :
    (Run maxMem rb n t b c sched).workers.length = t.toNat ∧
      (∀ (k : Nat) (w : ThreadRun E), (Run maxMem rb n t b c sched).workers[k]? = some w →
        w.threadID = k ∧ w.startSim = k * (n / t) ∧ w.numBatches = n / t / b ∧
          w.batchSize = b ∧
          (w.calls, w.err) = runThread rb k ((k : Int) * (n / t)) (n / t / b) b c) ∧
      (∃ e, (Run maxMem rb n t b c sched).outcome = .returned e) ∧
      ((Run maxMem rb n t b c sched).outcome = .returned none ↔
        ∀ k : Nat, (k : Int) < t →
          (runThread rb k ((k : Int) * (n / t)) (n / t / b) b c).2 = none) ∧
      ((Run maxMem rb n t b c sched).outcome = .returned none ↔
        ∀ k j : Nat, (k : Int) < t → (j : Int) < n / t / b →
          rb k ((k : Int) * (n / t) + (j : Int) * b) b c = none) ∧
      ((∃ k : Nat, (k : Int) < t ∧
          (runThread rb k ((k : Int) * (n / t)) (n / t / b) b c).2 ≠ none) →
        ∃ (k : Nat) (e : GoError E), (k : Int) < t ∧
          (runThread rb k ((k : Int) * (n / t)) (n / t / b) b c).2 = some e ∧
          (Run maxMem rb n t b c sched).outcome = .returned (some (.threadError e))) := by
  have hT : ∀ k : Nat, k ∈ sched ↔ (k : Int) < t := by
    intro k
    rw [hs.mem_iff, List.mem_range]
    have := h.2.2.1
    omega
  have herr : ∀ k : Nat, (k : Int) < t →
      (goroutine rb (n / t) (n / t / b) b c (k : Nat)).err =
        (runThread rb k ((k : Int) * (n / t)) (n / t / b) b c).2 := by
    intro k hk
    rw [goroutine_eq_runThread rb c h hk]
  have hiff : (Run maxMem rb n t b c sched).outcome = .returned none ↔
      ∀ k : Nat, (k : Int) < t →
        (runThread rb k ((k : Int) * (n / t)) (n / t / b) b c).2 = none := by
    rw [Run_valid maxMem rb c sched h hcap]
    simp only [Outcome.returned.injEq]
    rw [collect_eq_none]
    constructor
    · intro hall k hk
      rw [← herr k hk]
      exact hall _ (List.mem_map.mpr ⟨k, (hT k).mpr hk, rfl⟩)
    · intro hall e he
      obtain ⟨k, hk, rfl⟩ := List.mem_map.mp he
      rw [herr k ((hT k).mp hk)]
      exact hall k ((hT k).mp hk)
  refine ⟨?_, ?_, ?_, hiff, ?_, ?_⟩
  · rw [Run_valid maxMem rb c sched h hcap]
    simp
  · intro k w hw
    obtain ⟨hk, rfl, -⟩ := Run_valid_workers maxMem rb c sched h hw
    rw [goroutine_eq_runThread rb c h hk]
    exact ⟨rfl, rfl, rfl, rfl, rfl⟩
  · rw [Run_valid maxMem rb c sched h hcap]
    exact ⟨_, rfl⟩
  · rw [hiff]
    constructor
    · intro hall k j hk hj
      exact (runThread_eq_none_iff rb c h hk).mp (hall k hk) j hj
    · intro hall k hk
      exact (runThread_eq_none_iff rb c h hk).mpr (fun j hj => hall k j hk hj)
  · rintro ⟨k0, hk0, hne⟩
    rw [Run_valid maxMem rb c sched h hcap]
    simp only [Outcome.returned.injEq]
    rcases collect_map_cases
      (fun id => (goroutine rb (n / t) (n / t / b) b c (id : Nat)).err) sched with
      ⟨_, h2⟩ | ⟨pre, k, post, e, h1, _, h3, h4⟩
    · have := h2 k0 ((hT k0).mpr hk0)
      simp only [herr k0 hk0] at this
      exact absurd this hne
    · have hk : (k : Int) < t := (hT k).mp (by rw [h1]; simp)
      simp only [herr k hk] at h3
      exact ⟨k, e, hk, h3, h4⟩

/-- Witness of C8, amended: in the request `(12, 3, 2)` batch 1 of worker 1
(start 6) fails, and `Run` does not return `nil`. -/
theorem Run_aggregates_errors_witness :
    ValidRequest 12 3 2 ∧ makechanPanics (2 ^ 48) 3 = false ∧
      List.Perm [2, 0, 1] (List.range (3 : Int).toNat) ∧
      (Run (2 ^ 48) (failOn [(1, 6)]) 12 3 2 true [2, 0, 1]).outcome ≠ .returned none :=
  ⟨by decide, by decide, by decide, fun hnone =>
    absurd
      ((Run_aggregates_errors (2 ^ 48) (failOn [(1, 6)]) 12 3 2 true [2, 0, 1]
        (by decide) (by decide) (by decide)).2.2.2.2.1.mp hnone 1 1 (by decide) (by decide))
      (by decide)⟩

/-- C8, counterexample. The request `numSims = 2^62`, `threads = 2^61`,
`batchSize = 1` is valid and, with the `runBatch` of the source, no batch can
fail and no worker returns an error; but `16 * 2^61` overflows `uintptr`, so on
every platform `make(chan error, threads)` panics and `Run` does not return
`nil`. -/
theorem Run_panics_beyond_channel_limit :
    ValidRequest (2 ^ 62) (2 ^ 61) 1 ∧
      ∀ (maxMem : Int) (sched : List Nat),
        (∀ (th s bs : Int) (cp : Bool), (runBatch th s bs cp : Option Nat) = none) ∧
          (∀ w ∈ (Run (E := Nat) maxMem runBatch (2 ^ 62) (2 ^ 61) 1 true sched).workers,
            w.err = none) ∧
          (Run (E := Nat) maxMem runBatch (2 ^ 62) (2 ^ 61) 1 true sched).outcome =
            .panicked .makechanSize ∧
          (Run (E := Nat) maxMem runBatch (2 ^ 62) (2 ^ 61) 1 true sched).outcome ≠
            .returned none := by
  have hv : ValidRequest (2 ^ 62) (2 ^ 61) 1 := by decide
  refine ⟨hv, ?_⟩
  intro maxMem sched
  have hp : makechanPanics maxMem (2 ^ 61) = true := by
    simp only [makechanPanics, decide_eq_true_eq]
    right; left
    norm_num
  rw [Run_valid_panic maxMem runBatch true sched hv hp]
  refine ⟨fun _ _ _ _ => rfl, by simp, rfl, by simp⟩

/-- C9. Worker fail-fast in ascending order, for an arbitrary `runBatch`:
the calls of `runThread` are always the batches `0, 1, ..., m - 1` in this order
for some `m <= numBatches`; if `b` is the smallest batch index that fails, the
calls are exactly the batches `0, ..., b` and the result is the error "batch b
failed" wrapping that cause; if no batch fails, the calls are all `numBatches`
batches and the result is `nil`. -/
theorem runThread_fail_fast {E : Type} (rb : RunBatchFn E) (tid start nb bs : Int)
    (c : Bool) :
    (∃ m, m ≤ nb.toNat ∧
        (runThread rb tid start nb bs c).1 =
          (List.range m).map (fun (j : Nat) =>
            (⟨j, tid, goAdd start (goMul j bs), bs, c⟩ : BatchCall))) ∧
      (∀ (bi : Nat) (cause : E), (bi : Int) < nb →
        rb tid (goAdd start (goMul bi bs)) bs c = some cause →
        (∀ j : Nat, j < bi → rb tid (goAdd start (goMul j bs)) bs c = none) →
        runThread rb tid start nb bs c =
          ((List.range (bi + 1)).map (fun (j : Nat) =>
              (⟨j, tid, goAdd start (goMul j bs), bs, c⟩ : BatchCall)),
            some (.batchFailed bi cause))) ∧
      ((∀ j : Nat, (j : Int) < nb → rb tid (goAdd start (goMul j bs)) bs c = none) →
        runThread rb tid start nb bs c =
          ((List.range nb.toNat).map (fun (j : Nat) =>
              (⟨j, tid, goAdd start (goMul j bs), bs, c⟩ : BatchCall)),
            none)) := by
  refine ⟨runThread_calls rb tid start nb bs c, ?_, ?_⟩
  · intro bi cause hbi hfail hfirst
    rcases runThread_cases rb tid start nb bs c with ⟨_, h2⟩ | ⟨bi2, cause2, _, h2, h3, h4⟩
    · have := h2 bi (by omega)
      simp only [batchResult] at this
      rw [this] at hfail
      cases hfail
    · simp only [batchResult] at h2 h3
      have hb : bi2 = bi := by
        rcases lt_trichotomy bi2 bi with hlt | heq | hgt
        · rw [hfirst bi2 hlt] at h3
          cases h3
        · exact heq
        · rw [h2 bi hgt] at hfail
          cases hfail
      subst hb
      rw [h3] at hfail
      cases hfail
      exact h4
  · intro hall
    rcases runThread_cases rb tid start nb bs c with ⟨h1, _⟩ | ⟨bi2, cause2, h1, _, h3, _⟩
    · exact h1
    · simp only [batchResult] at h3
      rw [hall bi2 (by omega)] at h3
      cases h3

end Simulation
